import Mathlib

/-!
Verification of the `no-phi-ai` scanning engine against its specification.

The development shallowly embeds the Go sources of the repository:

* `tracker` — the `KeyTracker` lifecycle map (`pkg/scanner/tracker`).  The
  implementation file of this package is not present in the source tree (only
  its tests are), so the operations are modelled from the specification's
  §4.1 "Update semantics" and cross-checked against the expectations of
  `tracker_test.go`.
* `rrr` — request construction and fingerprinting (`pkg/scanner/rrr`),
  including a complete executable SHA-1.
* `scanner` — the ignore policy, the checkpoint store and the pieces of the
  `Scanner` pipeline (`reconcilePending`, `scanRepository`) that the claims
  are about.

Go maps are embedded as association lists, Go `int` as `Int`, byte strings as
`List Nat` with values below 256, and the wall clock as an explicit `now`
argument.  Fallible Go functions returning `(T, error)` become Lean functions
returning the pair of the result and an optional error.
-/

namespace NoPhiAi

namespace tracker

/-- Error values of the tracker package, named as in `tracker/errors_test.go`. -/
inductive TrackerErr where
  | keyCodeInvalid
  | keyTrackerInvalidKind
  | keyUpdateKeyEmpty
  deriving Repr, DecidableEq

/-- Kind tag for a tracker of commits. -/
def ScanObjectTypeCommit : String := "commit"

/-- Kind tag for a tracker of files. -/
def ScanObjectTypeFile : String := "file"

/-- Kind tag for a tracker of requests/responses. -/
def ScanObjectTypeRequestResponse : String := "request_response"

/-- Lifecycle code INIT = -2. -/
def KeyCodeInit : Int := -2

/-- Lifecycle code ERROR = -1. -/
def KeyCodeError : Int := -1

/-- Lifecycle code IGNORE = 0. -/
def KeyCodeIgnore : Int := 0

/-- Lifecycle code PENDING = 1. -/
def KeyCodePending : Int := 1

/-- Lifecycle code COMPLETE = 2. -/
def KeyCodeComplete : Int := 2

/-- State label for INIT (also the default label for unknown codes, per
`TestKeyCodeToState/CustomCode`). -/
def KeyStateInit : String := "init"

/-- State label for ERROR. -/
def KeyStateError : String := "error"

/-- State label for IGNORE. -/
def KeyStateIgnore : String := "ignore"

/-- State label for PENDING. -/
def KeyStatePending : String := "pending"

/-- State label for COMPLETE. -/
def KeyStateComplete : String := "complete"

/-- Modelled from the spec: the derived `state` label is the canonical string
for the effective code; `tracker_test.go` fixes that an out-of-range code maps
to the INIT label. -/
def KeyCodeToState (code : Int) : String :=
  if code = KeyCodeComplete then KeyStateComplete
  else if code = KeyCodeError then KeyStateError
  else if code = KeyCodeIgnore then KeyStateIgnore
  else if code = KeyCodePending then KeyStatePending
  else KeyStateInit

/-- Modelled from the spec: a `new_code` outside `{-2..2}` is invalid
(`ErrKeyCodeInvalid`). -/
def KeyCodeValidate (code : Int) : Option TrackerErr :=
  if KeyCodeInit ≤ code ∧ code ≤ KeyCodeComplete then none
  else some TrackerErr.keyCodeInvalid

/-- Per-identifier lifecycle record (`KeyData` of the tracker package).  The
Go `Children` map `child_id -> bool` is embedded as an association list. -/
structure KeyData where
  Code : Int
  State : String
  Message : String
  Children : List (String × Bool)
  TimestampFirst : Int
  TimestampLatest : Int
  deriving Repr, DecidableEq

/-- The Go `KeyDataMap` (`map[string]KeyData`) as an association list. -/
abbrev KeyDataMap := List (String × KeyData)

/-- The `KeyTracker`: a keyed map of `KeyData` plus a kind tag.  The internal
lock and logger of the Go struct have no observable pure behaviour and are
omitted. -/
structure KeyTracker where
  Keys : KeyDataMap
  Kind : String
  deriving Repr, DecidableEq

/-- Set the value of `k` in an association list: replace the first entry whose
key is `k`, or append a new entry when none exists (the embedding of a Go map
assignment `m[k] = v`). -/
def setEntry {β : Type} (l : List (String × β)) (k : String) (v : β) :
    List (String × β) :=
  match l with
  | [] => [(k, v)]
  | (k', v') :: rest =>
      if k' = k then (k, v) :: rest else (k', v') :: setEntry rest k v

/-- Modelled from the spec: merge one named child key into a children map.  A
child's flag is set `true` when the update carries `new_code == COMPLETE` and
names that child; otherwise new children are inserted as `false` and existing
`true` values are never demoted. -/
def mergeChild (is_complete : Bool) (children : List (String × Bool))
    (child_key : String) : List (String × Bool) :=
  match children.lookup child_key with
  | some _ => if is_complete then setEntry children child_key true else children
  | none => children ++ [(child_key, is_complete)]

/-- Modelled from the spec: merge all named child keys of one update into the
existing children map. -/
def mergeChildren (is_complete : Bool) (children : List (String × Bool))
    (child_keys : List String) : List (String × Bool) :=
  child_keys.foldl (mergeChild is_complete) children

/-- Modelled from the spec: `Update(key, new_code, message, child_keys)`, the
central state-transition primitive of §4.1, with the wall clock passed
explicitly as `now`.  The missing implementation file is reconstructed from
the spec's four numbered rules: empty-key and invalid-code rejection; insert
of a new key with children initialised `false`; monotonic completion (a
COMPLETE key keeps its code and message); demotion of `COMPLETE` to `PENDING`
while the merged children map still contains a `false` entry; otherwise the
new code and message are adopted and the latest timestamp refreshed. -/
def KeyTracker.Update (t : KeyTracker) (key : String) (new_code : Int)
    (message : String) (child_keys : List String) (now : Int) :
    (Int × Option TrackerErr) × KeyTracker :=
  if key = "" then ((0, some TrackerErr.keyUpdateKeyEmpty), t)
  else
    match KeyCodeValidate new_code with
    | some e => ((0, some e), t)
    | none =>
      match t.Keys.lookup key with
      | none =>
          let kd : KeyData :=
            { Code := new_code
              State := KeyCodeToState new_code
              Message := message
              Children := child_keys.map (fun k => (k, false))
              TimestampFirst := now
              TimestampLatest := now }
          ((new_code, none), { t with Keys := setEntry t.Keys key kd })
      | some kd =>
          let merged := mergeChildren (new_code = KeyCodeComplete) kd.Children child_keys
          if kd.Code = KeyCodeComplete then
            let kd' := { kd with Children := merged }
            ((KeyCodeComplete, none), { t with Keys := setEntry t.Keys key kd' })
          else if new_code = KeyCodeComplete ∧ merged.any (fun c => !c.2) then
            let kd' :=
              { kd with
                  Code := KeyCodePending
                  State := KeyCodeToState KeyCodePending
                  Message := message
                  Children := merged
                  TimestampLatest := now }
            ((KeyCodePending, none), { t with Keys := setEntry t.Keys key kd' })
          else
            let kd' :=
              { kd with
                  Code := new_code
                  State := KeyCodeToState new_code
                  Message := message
                  Children := merged
                  TimestampLatest := now }
            ((new_code, none), { t with Keys := setEntry t.Keys key kd' })

/-- Modelled from the spec: `Get(key)` is a pure read of the tracked map. -/
def KeyTracker.Get (t : KeyTracker) (key : String) : Option KeyData :=
  t.Keys.lookup key

/-- Modelled from the spec: `CheckAllComplete()` is true iff every key is in a
terminal state (COMPLETE or ERROR). -/
def KeyTracker.CheckAllComplete (t : KeyTracker) : Bool :=
  t.Keys.all (fun kv => kv.2.Code == KeyCodeComplete || kv.2.Code == KeyCodeError)

/-- Modelled from the spec: `GetKeysDataForCode(code)` filters the snapshot by
code and fails with `ErrKeyCodeInvalid` on a code outside `{-2..2}`. -/
def KeyTracker.GetKeysDataForCode (t : KeyTracker) (code : Int) :
    Except TrackerErr KeyDataMap :=
  match KeyCodeValidate code with
  | some e => Except.error e
  | none => Except.ok (t.Keys.filter (fun kv => kv.2.Code == code))

/-- An empty tracker of the given kind, as built by `NewKeyTracker`. -/
def emptyTracker (kind : String) : KeyTracker := { Keys := [], Kind := kind }

end tracker

namespace rrr

/-- Modelled from the spec: the fixed separator string used to join the
fingerprint tuple.  Its definition file is absent from the source tree; the
value is pinned uniquely by the test vector of
`TestNewRequest/ValidInput` (`"0be325f9ba1df76ddfcf60fe972f3b0f06781ac1"`),
which only the separator `"__"` reproduces. -/
def ResultSeparatorUID : String := "__"

/-- Reduce a natural number to a 32-bit word. -/
def uint32 (n : Nat) : Nat := n % 4294967296

/-- Left-rotation of a 32-bit word by `s` bits. -/
def rotl (s x : Nat) : Nat := uint32 ((x <<< s) ||| (x >>> (32 - s)))

/-- Bitwise complement of a 32-bit word. -/
def not32 (x : Nat) : Nat := x ^^^ 4294967295

/-- UTF-8 encoding of one character, as a list of byte values (Go strings are
UTF-8 byte sequences, so `[]byte(s)` is the concatenation of these). -/
def charUtf8 (c : Char) : List Nat :=
  let n := c.toNat
  if n < 128 then [n]
  else if n < 2048 then [192 ||| (n >>> 6), 128 ||| (n &&& 63)]
  else if n < 65536 then
    [224 ||| (n >>> 12), 128 ||| ((n >>> 6) &&& 63), 128 ||| (n &&& 63)]
  else
    [240 ||| (n >>> 18), 128 ||| ((n >>> 12) &&& 63), 128 ||| ((n >>> 6) &&& 63),
      128 ||| (n &&& 63)]

/-- The UTF-8 bytes of a string (the embedding of Go's `[]byte(s)`). -/
def strBytes (s : String) : List Nat := (s.data.map charUtf8).flatten

/-- The `k` low-order bytes of `n` in big-endian order. -/
def bytesBE (k n : Nat) : List Nat :=
  match k with
  | 0 => []
  | k' + 1 => bytesBE k' (n >>> 8) ++ [n % 256]

/-- Group a byte list into 32-bit big-endian words (dropping any trailing
partial group; SHA-1 only applies this to 64-byte chunks). -/
def wordsOfBytes : List Nat → List Nat
  | b0 :: b1 :: b2 :: b3 :: rest =>
      ((b0 <<< 24) ||| (b1 <<< 16) ||| (b2 <<< 8) ||| b3) :: wordsOfBytes rest
  | _ => []

/-- SHA-1 padding: append `0x80`, zero bytes, and the 64-bit big-endian bit
length, reaching a multiple of 64 bytes. -/
def sha1Pad (msg : List Nat) : List Nat :=
  msg ++ [128] ++ List.replicate ((119 - msg.length % 64) % 64) 0 ++
    bytesBE 8 (msg.length * 8)

/-- Split a byte list into 64-byte chunks, structurally recursing on a fuel
bound (any fuel of at least `l.length` steps is enough, since every step
removes at least one element). -/
def chunks64Aux : Nat → List Nat → List (List Nat)
  | _, [] => []
  | 0, l => [l]
  | fuel + 1, l => l.take 64 :: chunks64Aux fuel (l.drop 64)

/-- Split a byte list into 64-byte chunks. -/
def chunks64 (l : List Nat) : List (List Nat) := chunks64Aux l.length l

/-- Extend the 16 message words of a chunk by one more word of the SHA-1
message schedule. -/
def sha1ExtendStep (w : List Nat) : List Nat :=
  let n := w.length
  w ++ [rotl 1 ((w.getD (n - 3) 0) ^^^ (w.getD (n - 8) 0) ^^^
    (w.getD (n - 14) 0) ^^^ (w.getD (n - 16) 0))]

/-- Extend the 16 message words of a chunk to the 80 words of the SHA-1
message schedule. -/
def sha1Extend (w : List Nat) : List Nat :=
  Nat.rec w (fun _ acc => sha1ExtendStep acc) 64

/-- The SHA-1 round function, by round index. -/
def sha1F (i b c d : Nat) : Nat :=
  if i < 20 then (b &&& c) ||| (not32 b &&& d)
  else if i < 40 then b ^^^ c ^^^ d
  else if i < 60 then (b &&& c) ||| (b &&& d) ||| (c &&& d)
  else b ^^^ c ^^^ d

/-- The SHA-1 round constants, by round index. -/
def sha1K (i : Nat) : Nat :=
  if i < 20 then 0x5A827999
  else if i < 40 then 0x6ED9EBA1
  else if i < 60 then 0x8F1BBCDC
  else 0xCA62C1D6

/-- Run the 80 SHA-1 rounds of one chunk over the working state. -/
def sha1Rounds : List Nat → Nat → Nat × Nat × Nat × Nat × Nat →
    Nat × Nat × Nat × Nat × Nat
  | [], _, st => st
  | w :: ws, i, (a, b, c, d, e) =>
      sha1Rounds ws (i + 1)
        (uint32 (rotl 5 a + sha1F i b c d + e + sha1K i + w), a, rotl 30 b, c, d)

/-- Compress one 64-byte chunk into the running SHA-1 state. -/
def sha1Chunk (h : Nat × Nat × Nat × Nat × Nat) (chunk : List Nat) :
    Nat × Nat × Nat × Nat × Nat :=
  let (a, b, c, d, e) := sha1Rounds (sha1Extend (wordsOfBytes chunk)) 0 h
  (uint32 (h.1 + a), uint32 (h.2.1 + b), uint32 (h.2.2.1 + c),
    uint32 (h.2.2.2.1 + d), uint32 (h.2.2.2.2 + e))

/-- The 20-byte SHA-1 digest of a byte list. -/
def sha1Bytes (msg : List Nat) : List Nat :=
  let st := (chunks64 (sha1Pad msg)).foldl sha1Chunk
    (0x67452301, 0xEFCDAB89, 0x98BADCFE, 0x10325476, 0xC3D2E1F0)
  bytesBE 4 st.1 ++ bytesBE 4 st.2.1 ++ bytesBE 4 st.2.2.1 ++
    bytesBE 4 st.2.2.2.1 ++ bytesBE 4 st.2.2.2.2

/-- The lowercase hexadecimal digit for a value below 16. -/
def hexDigit (n : Nat) : Char :=
  if n < 10 then Char.ofNat (48 + n) else Char.ofNat (87 + n)

/-- Lowercase hexadecimal rendering of a byte list (the embedding of Go's
`hex.EncodeToString`). -/
def bytesToHex (bs : List Nat) : String :=
  String.mk ((bs.map (fun b => [hexDigit (b / 16), hexDigit (b % 16)])).flatten)

/-- Lowercase hex SHA-1 of the UTF-8 bytes of a string. -/
def sha1HexOfString (s : String) : String := bytesToHex (sha1Bytes (strBytes s))

/-- Commit metadata carried by a request/response. -/
structure MetadataRequestResponseCommit where
  ID : String
  deriving Repr, DecidableEq

/-- Object (file) metadata carried by a request/response. -/
structure MetadataRequestResponseObject where
  ID : String
  Length : Int
  Offset : Int
  deriving Repr, DecidableEq

/-- Repository metadata carried by a request/response. -/
structure MetadataRequestResponseRepository where
  ID : String
  URL : String
  deriving Repr, DecidableEq

/-- Timestamps set during request processing. -/
structure MetadataRequestResponseTime where
  Start : Int
  Stop : Int
  deriving Repr, DecidableEq

/-- Metadata shared between a request and its response. -/
structure MetadataRequestResponse where
  ID : String
  Commit : MetadataRequestResponseCommit
  Object : MetadataRequestResponseObject
  Repository : MetadataRequestResponseRepository
  Time : MetadataRequestResponseTime
  deriving Repr, DecidableEq

/-- A unit of text to be scanned (Go embeds `MetadataRequestResponse` in
`Request`; the embedding is modelled as a `Meta` field). -/
structure Request where
  Meta : MetadataRequestResponse
  Text : String
  deriving Repr, DecidableEq

/-- The fingerprint ID of a request (Go's promoted field `r.ID`). -/
def Request.ID (r : Request) : String := r.Meta.ID

/-- The zero value `Request{}` returned by `NewRequest` on invalid input. -/
def requestZero : Request :=
  { Meta :=
      { ID := ""
        Commit := { ID := "" }
        Object := { ID := "", Length := 0, Offset := 0 }
        Repository := { ID := "", URL := "" }
        Time := { Start := 0, Stop := 0 } }
    Text := "" }

/-- Input parameters of `NewRequest()`. -/
structure NewRequestInput where
  CommitID : String
  Length : Int
  ObjectID : String
  Offset : Int
  RepoID : String
  Text : String
  deriving Repr, DecidableEq

/-- Error values of the rrr package relevant to `NewRequest()`. -/
inductive RrrErr where
  | newRequestEmptyRepositoryID
  | newRequestEmptyObjectID
  | newRequestEmptyCommitID
  | newRequestEmptyText
  deriving Repr, DecidableEq

/-- The fingerprint: lowercase hex SHA-1 of the tuple
`repo_id | commit_id | object_id | text` joined by `ResultSeparatorUID`. -/
def requestFingerprint (repo_id commit_id object_id text : String) : String :=
  sha1HexOfString
    (String.intercalate ResultSeparatorUID [repo_id, commit_id, object_id, text])

/-- `NewRequest()` of `request_response.go`, with `TimestampNow()` passed
explicitly as `now`.  Empty inputs are rejected in the source's order
(repository, object, commit, text); otherwise the request carries the SHA-1
fingerprint ID. -/
def NewRequest (now : Int) (input : NewRequestInput) : Request × Option RrrErr :=
  if input.RepoID = "" then (requestZero, some RrrErr.newRequestEmptyRepositoryID)
  else if input.ObjectID = "" then (requestZero, some RrrErr.newRequestEmptyObjectID)
  else if input.CommitID = "" then (requestZero, some RrrErr.newRequestEmptyCommitID)
  else if input.Text = "" then (requestZero, some RrrErr.newRequestEmptyText)
  else
    ({ Meta :=
        { ID := requestFingerprint input.RepoID input.CommitID input.ObjectID input.Text
          Commit := { ID := input.CommitID }
          Object := { ID := input.ObjectID, Length := input.Length, Offset := input.Offset }
          Repository := { ID := input.RepoID, URL := "" }
          Time := { Start := now, Stop := 0 } }
       Text := input.Text }, none)

end rrr

namespace scanner

/-- Go errors as a tree: a named base error or `errors.Wrap(err, msg)`. -/
inductive GoError where
  | base (name : String)
  | wrap (err : GoError) (msg : String)
  deriving Repr, DecidableEq

/-- `ErrCheckpointPathLookupFailed` of `errors.go`. -/
def ErrCheckpointPathLookupFailed : GoError :=
  GoError.base "failed to lookup checkpoint path"

/-- `ErrCheckpointFileOpenFailed` of `errors.go`. -/
def ErrCheckpointFileOpenFailed : GoError :=
  GoError.base "failed to open checkpoint file"

/-- `ErrCheckpointFileReadFailed` of `errors.go`. -/
def ErrCheckpointFileReadFailed : GoError :=
  GoError.base "failed to read checkpoint file"

/-- `ErrScannerRepositoryNil` of `errors.go`. -/
def ErrScannerRepositoryNil : GoError :=
  GoError.base "Scanner cannot scan repository with nil pointer"

/-- `ErrMsgErrorChannelNil` of `errors.go`. -/
def ErrMsgErrorChannelNil : String := "received nil error channel as input"

/-- `CheckpointFileExtension` of `constants.go`. -/
def CheckpointFileExtension : String := ".checkpoint"

/-- `IgnoreReasonDefault` of `constants.go`. -/
def IgnoreReasonDefault : String := "ignored_by_default"

/-- `IgnoreReasonDirPath` of `constants.go`. -/
def IgnoreReasonDirPath : String := "directory_path"

/-- `IgnoreReasonFileExtensionIgnoredByConfig` of `constants.go`. -/
def IgnoreReasonFileExtensionIgnoredByConfig : String :=
  "file_extension_ignored_by_config"

/-- `IgnoreReasonFileExtensionIgnoredByPolicy` of `constants.go`. -/
def IgnoreReasonFileExtensionIgnoredByPolicy : String :=
  "file_extension_ignored_by_policy"

/-- `IgnoreReasonFileExtensionNotIncluded` of `constants.go`. -/
def IgnoreReasonFileExtensionNotIncluded : String := "file_extension_not_included"

/-- `IgnoreReasonFileIsBinary` of `constants.go`. -/
def IgnoreReasonFileIsBinary : String := "file_is_binary"

/-- `IgnoreReasonFileIsEmpty` of `constants.go`. -/
def IgnoreReasonFileIsEmpty : String := "file_is_empty"

/-- `IgnoreReasonFileObjectPointerNil` of `constants.go`. -/
def IgnoreReasonFileObjectPointerNil : String := "file_object_pointer_nil"

/-- `IgnoreReasonFileName` of `constants.go`. -/
def IgnoreReasonFileName : String := "file_name"

/-- A git file object as seen by the ignore policy: its path (`Name`), its
size, and whether the content sniff of the ignore policy classifies the
content as binary (the sniff itself reads the blob and is abstracted to this
attribute of the object). -/
structure FileObject where
  Name : String
  Size : Int
  IsBinary : Bool
  deriving Repr, DecidableEq

/-- Split a character list at every occurrence of `sep` (the semantics of
Go's `strings.Split` for a one-character separator). -/
def splitCharsOn (sep : Char) : List Char → List Char → List (List Char)
  | [], acc => [acc.reverse]
  | c :: rest, acc =>
      if c = sep then acc.reverse :: splitCharsOn sep rest []
      else splitCharsOn sep rest (c :: acc)

/-- Split a string at every occurrence of the character `sep`. -/
def splitOnChar (sep : Char) (s : String) : List String :=
  (splitCharsOn sep s.data []).map String.mk

/-- The final path element of a slash-separated path. -/
def baseName (path : String) : String :=
  (splitOnChar '/' path).getLastD ""

/-- The directory elements of a slash-separated path (everything but the
final element). -/
def dirElems (path : String) : List String :=
  (splitOnChar '/' path).dropLast

/-- The file extension in the manner of Go's `filepath.Ext`: the suffix of
the base name starting at its final dot, or `""` when the base name has no
dot. -/
def fileExt (path : String) : String :=
  let parts := splitOnChar '.' (baseName path)
  match parts with
  | [] => ""
  | [_] => ""
  | _ => "." ++ parts.getLastD ""

/-- Modelled from the spec: the configured directory-ignore list of the
ignore policy (e.g. `vendor/`), pinned by `TestIgnoreFileObject/VendorFooGo`
and `TestIgnoreFilePath`. -/
def ignoredDirectories : List String := ["vendor"]

/-- Modelled from the spec: the configured name-ignore list of the ignore
policy (e.g. `.gitignore`, `LOCK`), pinned by
`TestIgnoreFileObject/IgnoreFileName` and `TestIgnoreFilePath`. -/
def ignoredFileNames : List String := [".gitignore", "LOCK"]

/-- Modelled from the spec: the built-in policy deny list of extensions
(binary media); `TestIgnoreFileObject/IgnoreExtensionsByPolicy` pins that
`.png` is a member. -/
def policyIgnoredExtensions : List String := [".bmp", ".exe", ".gif", ".ico", ".png"]

/-- Modelled from the spec: `IgnoreFileObject(file, allowed_extensions,
ignored_extensions)` applying the rules of §4.4 strictly in order, first
match wins.  The implementation file is absent from the source tree; rules
and order follow the spec, while the reason string of the
extension-not-allowed rule follows the repository's own test
`TestIgnoreFileObject/IgnoreExtensionsNotIncludedInConfig`, which requires
`IgnoreReasonDefault` (`"ignored_by_default"`) where the spec text says
`file_extension_not_included`. -/
def IgnoreFileObject (file : Option FileObject)
    (allowed_extensions ignored_extensions : List String) : Bool × String :=
  match file with
  | none => (true, IgnoreReasonFileObjectPointerNil)
  | some f =>
    if f.Size = 0 then (true, IgnoreReasonFileIsEmpty)
    else if (dirElems f.Name).any (fun d => ignoredDirectories.contains d) then
      (true, IgnoreReasonDirPath)
    else if ignoredFileNames.contains (baseName f.Name) then
      (true, IgnoreReasonFileName)
    else if ignored_extensions.contains (fileExt f.Name) then
      (true, IgnoreReasonFileExtensionIgnoredByConfig)
    else if policyIgnoredExtensions.contains (fileExt f.Name) then
      (true, IgnoreReasonFileExtensionIgnoredByPolicy)
    else if !(allowed_extensions.contains (fileExt f.Name)) then
      (true, IgnoreReasonDefault)
    else if f.IsBinary then (true, IgnoreReasonFileIsBinary)
    else (false, "")

/-- Modelled from the spec: `WorkDirCheckpoints` of the cfg package; the
checkpoint path scheme is `<work_dir>/checkpoints/...`. -/
def WorkDirCheckpoints : String := "checkpoints"

/-- Modelled from the spec: parsing of org and repo names from a clone URL
(`nogit.ParseOrgNameFromURL` / `ParseRepoNameFromURL`, absent from the source
tree).  A trailing `.git` is stripped, an ssh-style `host:` prefix removed,
and the last two path elements are the org and repo names. -/
def parseOrgRepoFromURL (repo_url : String) : Option (String × String) :=
  let cs := repo_url.data
  let cs := if ('.' :: 'g' :: 'i' :: 't' :: []).isSuffixOf cs then
    cs.take (cs.length - 4) else cs
  let tail := (splitCharsOn ':' cs []).getLastD []
  match ((splitCharsOn '/' tail []).filter (fun p => p ≠ [])).reverse with
  | repo :: org :: _ => some (String.mk org, String.mk repo)
  | _ => none

/-- `getCheckpointPath()` of `checkpoint.go`: reject empty inputs, parse org
and repo from the URL, and join
`<work_dir>/checkpoints/<org>_<repo>[_<commit>].checkpoint`. -/
def getCheckpointPath (work_dir repo_url commit_id : String) :
    Except GoError String :=
  if work_dir = "" then
    Except.error (GoError.wrap ErrCheckpointPathLookupFailed "work_dir is empty")
  else if repo_url = "" then
    Except.error (GoError.wrap ErrCheckpointPathLookupFailed "repo_url is empty")
  else
    match parseOrgRepoFromURL repo_url with
    | none =>
        Except.error (GoError.wrap ErrCheckpointPathLookupFailed "url parse failed")
    | some (org_name, repo_name) =>
        let name_list :=
          if commit_id = "" then [org_name, repo_name]
          else [org_name, repo_name, commit_id]
        Except.ok (String.intercalate "/"
          [work_dir, WorkDirCheckpoints,
            String.intercalate "_" name_list ++ CheckpointFileExtension])

/-- A filesystem: the set of existing directories and the contents of
existing files. -/
structure FileSys where
  dirs : List String
  files : List (String × List Nat)
  deriving Repr, DecidableEq

/-- The parent directory of a slash-separated path. -/
def parentDir (path : String) : String :=
  String.intercalate "/" ((splitOnChar '/' path).dropLast)

/-- `openCheckpointFile()` of `checkpoint.go`: derive the path and open it
with `os.O_CREATE|os.O_RDWR`, which creates an empty file when none exists
(and fails when the parent directory does not exist). -/
def openCheckpointFile (fs : FileSys) (work_dir repo_url commit_id : String) :
    Except GoError (String × FileSys) :=
  match getCheckpointPath work_dir repo_url commit_id with
  | Except.error e => Except.error e
  | Except.ok path =>
      if fs.dirs.contains (parentDir path) then
        match fs.files.lookup path with
        | some _ => Except.ok (path, fs)
        | none => Except.ok (path, { fs with files := tracker.setEntry fs.files path [] })
      else Except.error (GoError.wrap ErrCheckpointFileOpenFailed "no such file or directory")

/-- The persisted checkpoint tuple of `checkpoint.go`. -/
structure Checkpoint where
  CreatedAt : Int
  TrackerCommitsData : tracker.KeyDataMap
  TrackerFilesData : tracker.KeyDataMap
  TrackerRequestsData : tracker.KeyDataMap
  deriving Repr, DecidableEq

/-- `CheckpointGet()` of `checkpoint.go`: derive the path, open (creating if
absent), stat, fail with `ErrCheckpointFileReadFailed`-wrapped
`"file size is 0"` on an empty file, and otherwise read and decode the
contents.  The base64/JSON decoding tail — never reached by the claims —
is abstracted as the `decode` argument. -/
def CheckpointGet (decode : List Nat → Except GoError Checkpoint)
    (fs : FileSys) (work_dir repo_url commit_id : String) :
    (Option Checkpoint × Option GoError) × FileSys :=
  match getCheckpointPath work_dir repo_url commit_id with
  | Except.error e => ((none, some e), fs)
  | Except.ok _ =>
    match openCheckpointFile fs work_dir repo_url commit_id with
    | Except.error e => ((none, some e), fs)
    | Except.ok (path, fs') =>
      match fs'.files.lookup path with
      | none => ((none, some (GoError.base "stat failed")), fs')
      | some content =>
        if content.length = 0 then
          ((none, some (GoError.wrap ErrCheckpointFileReadFailed "file size is 0")), fs')
        else
          match decode content with
          | Except.error e => ((none, some e), fs')
          | Except.ok c => ((some c, none), fs')

/-- A repository handle as seen by `scanRepository`: the commit hashes its
iterator yields, in iteration order. -/
structure Repository where
  commits : List String
  deriving Repr, DecidableEq

/-- How one call of `scanRepository` terminates. -/
inductive ScanOutcome where
  | panicked (msg : String)
  | finished
  deriving Repr, DecidableEq

/-- The observable effects of one `scanRepository` call: the errors sent on
`errors_out`, the commits handed to `scanCommit`, and the way the call
returned. -/
structure ScanRepoResult where
  sentErrors : List GoError
  walkedCommits : List String
  outcome : ScanOutcome
  deriving Repr, DecidableEq

/-- The sequential skeleton of `Scanner.scanRepository` (`scanner.go`): a nil
`errors_out` hits `logger.Panic` (`ErrMsgErrorChannelNil`) before anything
else; a nil repository causes `ErrScannerRepositoryNil` to be sent on
`errors_out`, after which the method still dereferences the nil repository
to acquire its commit iterator — a nil-pointer panic before any commit is
walked; otherwise the commit iterator hands every commit to `scanCommit`. -/
def scanRepository (errors_out_is_nil : Bool) (repository : Option Repository) :
    ScanRepoResult :=
  if errors_out_is_nil then
    { sentErrors := [], walkedCommits := [], outcome := ScanOutcome.panicked ErrMsgErrorChannelNil }
  else
    match repository with
    | none =>
        { sentErrors := [ErrScannerRepositoryNil]
          walkedCommits := []
          outcome := ScanOutcome.panicked "invalid memory address or nil pointer dereference" }
    | some repo =>
        { sentErrors := [], walkedCommits := repo.commits, outcome := ScanOutcome.finished }

/-- The three trackers owned by a `Scanner`. -/
structure ScannerTrackers where
  TrackerCommits : tracker.KeyTracker
  TrackerFiles : tracker.KeyTracker
  TrackerRequests : tracker.KeyTracker
  deriving Repr, DecidableEq

/-- Whether a child tracker holds `cid` with code COMPLETE (the per-child
test inside `reconcilePending`: a missing child is logged and skipped). -/
def childIsComplete (child : tracker.KeyTracker) (cid : String) : Bool :=
  match child.Keys.lookup cid with
  | some cd => cd.Code == tracker.KeyCodeComplete
  | none => false

/-- The child IDs of `kd` whose flag is still `false` but whose entry in the
child tracker is COMPLETE (the `requests_complete` / `files_complete` list of
`reconcilePending`). -/
def completeChildrenOf (child : tracker.KeyTracker) (kd : tracker.KeyData) :
    List String :=
  (kd.Children.filter (fun c => !c.2 && childIsComplete child c.1)).map Prod.fst

/-- One iteration of a `reconcilePending` loop: if the pending entry `kv` has
children that are complete in the child tracker but not yet flagged, promote
them with `Update(key, COMPLETE, "", those_ids)`. -/
def reconcileStep (child : tracker.KeyTracker) (now : Int)
    (parent : tracker.KeyTracker) (kv : String × tracker.KeyData) :
    tracker.KeyTracker :=
  let cc := completeChildrenOf child kv.2
  if cc.isEmpty then parent
  else (parent.Update kv.1 tracker.KeyCodeComplete "" cc now).2

/-- `Scanner.reconcilePending` (`scanner.go`): promote pending files against
the request tracker, then pending commits against the updated file tracker.
Iteration order over a Go map is arbitrary; the embedding folds over the
association list's order. -/
def reconcilePending (s : ScannerTrackers) (now : Int) : ScannerTrackers :=
  match s.TrackerFiles.GetKeysDataForCode tracker.KeyCodePending with
  | Except.error _ => s
  | Except.ok pending_files =>
    let files' := pending_files.foldl (reconcileStep s.TrackerRequests now) s.TrackerFiles
    match s.TrackerCommits.GetKeysDataForCode tracker.KeyCodePending with
    | Except.error _ => { s with TrackerFiles := files' }
    | Except.ok pending_commits =>
      let commits' := pending_commits.foldl (reconcileStep files' now) s.TrackerCommits
      { s with TrackerFiles := files', TrackerCommits := commits' }

/-- The pending entries of a tracker: what `GetKeysDataForCode(PENDING)`
returns. -/
def pendingList (t : tracker.KeyTracker) : tracker.KeyDataMap :=
  t.Keys.filter (fun kv => kv.2.Code == tracker.KeyCodePending)

/-- Well-formedness of a tracker state as built by Go maps: no duplicate
tracked keys, and no duplicate child keys within any entry. -/
def WF (t : tracker.KeyTracker) : Prop :=
  (t.Keys.map Prod.fst).Nodup ∧
    ∀ kv ∈ t.Keys, (kv.2.Children.map Prod.fst).Nodup

end scanner

/-!
Helper lemmas about the association-list embedding of Go maps.
-/

namespace tracker

/-- Looking up the key just set by `setEntry` yields the new value. -/
theorem lookup_setEntry_self {β : Type} (l : List (String × β)) (k : String) (v : β) :
    (setEntry l k v).lookup k = some v := by
  induction l with
  | nil => simp [setEntry]
  | cons hd tl ih =>
      obtain ⟨k', v'⟩ := hd
      by_cases h : k' = k
      · subst h
        simp [setEntry]
      · have hf : (k == k') = false := by
          simp only [beq_eq_false_iff_ne, ne_eq]
          exact fun hh => h hh.symm
        simp [setEntry, h, List.lookup, hf, ih]

/-- `setEntry` leaves every other key's lookup unchanged. -/
theorem lookup_setEntry_ne {β : Type} (l : List (String × β)) (k k' : String) (v : β)
    (h : k' ≠ k) : (setEntry l k v).lookup k' = l.lookup k' := by
  have hf : (k' == k) = false := by
    simp only [beq_eq_false_iff_ne, ne_eq]
    exact h
  induction l with
  | nil => simp [setEntry, List.lookup, hf]
  | cons hd tl ih =>
      obtain ⟨k0, v0⟩ := hd
      by_cases h0 : k0 = k
      · subst h0
        simp [setEntry, List.lookup, hf]
      · simp [setEntry, h0, List.lookup, ih]

end tracker

open tracker

/-- C1: an `Update` with `new_code == COMPLETE` on a tracked, not yet
COMPLETE key whose merged children map still contains a `false` entry yields
effective code PENDING (not COMPLETE) while updating the message and the
last-update timestamp; when the merge leaves no `false` entry the `Update`
returns COMPLETE.  Concretely, a key with children `{r1, r2}` goes to
PENDING with `r1 := true`, `r2 = false` after `Update(f, COMPLETE, "", [r1])`
and to COMPLETE after `Update(f, COMPLETE, "", [r2])`. -/
theorem claim_C1 :
    (∀ (t : KeyTracker) (key : String) (kd : KeyData)
        (message : String) (child_keys : List String) (now : Int),
        key ≠ "" → t.Get key = some kd → kd.Code ≠ KeyCodeComplete →
        (mergeChildren true kd.Children child_keys).any (fun c => !c.2) = true →
        (t.Update key KeyCodeComplete message child_keys now).1.1 = KeyCodePending ∧
        ∃ kd', (t.Update key KeyCodeComplete message child_keys now).2.Get key = some kd' ∧
          kd'.Code = KeyCodePending ∧ kd'.Message = message ∧ kd'.TimestampLatest = now) ∧
    (∀ (t : KeyTracker) (key : String) (kd : KeyData)
        (message : String) (child_keys : List String) (now : Int),
        key ≠ "" → t.Get key = some kd → kd.Code ≠ KeyCodeComplete →
        (mergeChildren true kd.Children child_keys).any (fun c => !c.2) = false →
        (t.Update key KeyCodeComplete message child_keys now).1.1 = KeyCodeComplete) ∧
    (((((emptyTracker ScanObjectTypeFile).Update "f" KeyCodePending "" ["r1", "r2"] 0).2.Update
        "f" KeyCodeComplete "" ["r1"] 1).1.1 = KeyCodePending) ∧
      ((((emptyTracker ScanObjectTypeFile).Update "f" KeyCodePending "" ["r1", "r2"] 0).2.Update
        "f" KeyCodeComplete "" ["r1"] 1).2.Get "f").map KeyData.Children =
        some [("r1", true), ("r2", false)] ∧
      ((((emptyTracker ScanObjectTypeFile).Update "f" KeyCodePending "" ["r1", "r2"] 0).2.Update
        "f" KeyCodeComplete "" ["r1"] 1).2.Update "f" KeyCodeComplete "" ["r2"] 2).1.1 =
        KeyCodeComplete) := by
  have hdec : (decide (KeyCodeComplete = KeyCodeComplete)) = true := by decide
  refine ⟨?_, ?_, by decide, by decide, by decide⟩
  · intro t key kd message child_keys now hkey hget hcode hany
    have hval : KeyCodeValidate KeyCodeComplete = none := by decide
    have hget' : t.Keys.lookup key = some kd := hget
    simp only [KeyTracker.Update, if_neg hkey, hval, hget', hdec]
    rw [if_neg hcode, if_pos ⟨trivial, hany⟩]
    exact ⟨rfl, _, lookup_setEntry_self _ _ _, rfl, rfl, rfl⟩
  · intro t key kd message child_keys now hkey hget hcode hany
    have hval : KeyCodeValidate KeyCodeComplete = none := by decide
    have hget' : t.Keys.lookup key = some kd := hget
    simp only [KeyTracker.Update, if_neg hkey, hval, hget', hdec]
    rw [if_neg hcode, if_neg (by simp [hany])]

/-- Witness for C1: the pending branch applied at a concrete tracker holding
key `"f"` in PENDING with children `r1`, `r2` both `false`. -/
theorem claim_C1_witness :
    (((emptyTracker ScanObjectTypeFile).Update "f" KeyCodePending "" ["r1", "r2"] 0).2.Update
      "f" KeyCodeComplete "partial" ["r1"] 9).1.1 = KeyCodePending := by
  exact (claim_C1.1 ((emptyTracker ScanObjectTypeFile).Update "f" KeyCodePending ""
    ["r1", "r2"] 0).2 "f"
    (KeyData.mk KeyCodePending KeyStatePending "" [("r1", false), ("r2", false)] 0 0)
    "partial" ["r1"] 9 (by decide) (by decide) (by decide) (by decide)).1

/-- C2: once a key's stored code is COMPLETE, any further `Update` with a
valid code returns COMPLETE and leaves the stored code COMPLETE and the
stored message at its prior value; the concrete sequence
`[INIT, ERROR, IGNORE, PENDING, COMPLETE]` followed by
`[PENDING, IGNORE, ERROR, INIT]` ends with code COMPLETE. -/
theorem claim_C2 :
    (∀ (t : KeyTracker) (key : String) (kd : KeyData) (new_code : Int)
        (message : String) (child_keys : List String) (now : Int),
        key ≠ "" → t.Get key = some kd → kd.Code = KeyCodeComplete →
        KeyCodeInit ≤ new_code → new_code ≤ KeyCodeComplete →
        (t.Update key new_code message child_keys now).1.1 = KeyCodeComplete ∧
        ∃ kd', (t.Update key new_code message child_keys now).2.Get key = some kd' ∧
          kd'.Code = KeyCodeComplete ∧ kd'.Message = kd.Message) ∧
    (((([KeyCodeInit, KeyCodeError, KeyCodeIgnore, KeyCodePending, KeyCodeComplete,
        KeyCodePending, KeyCodeIgnore, KeyCodeError, KeyCodeInit]).foldl
        (fun t c => (t.Update "A" c "" [] 0).2)
        (emptyTracker ScanObjectTypeFile)).Get "A").map KeyData.Code =
      some KeyCodeComplete) := by
  constructor
  · intro t key kd new_code message child_keys now hkey hget hcode hlo hhi
    have hval : KeyCodeValidate new_code = none := by
      simp [KeyCodeValidate, hlo, hhi]
    have hget' : t.Keys.lookup key = some kd := hget
    simp only [KeyTracker.Update, if_neg hkey, hval, hget']
    rw [if_pos hcode]
    exact ⟨rfl, _, lookup_setEntry_self _ _ _, hcode, rfl⟩
  · decide

/-- Witness for C2: the monotonic branch applied to a tracker whose key `"A"`
is already COMPLETE with message `"m0"`. -/
theorem claim_C2_witness :
    (((emptyTracker ScanObjectTypeFile).Update "A" KeyCodeComplete "m0" [] 0).2.Update
      "A" KeyCodePending "m1" [] 1).1.1 = KeyCodeComplete := by
  exact (claim_C2.1
    ((emptyTracker ScanObjectTypeFile).Update "A" KeyCodeComplete "m0" [] 0).2
    "A" (KeyData.mk KeyCodeComplete KeyStateComplete "m0" [] 0 0)
    KeyCodePending "m1" [] 1 (by decide) (by decide) (by decide) (by decide) (by decide)).1

/-- C4: `CheckAllComplete()` is true exactly when every tracked key's code is
COMPLETE or ERROR; it is vacuously true on an empty tracker and false
whenever some key is in INIT, PENDING or IGNORE. -/
theorem claim_C4 :
    (∀ t : KeyTracker, t.CheckAllComplete = true ↔
        ∀ kv ∈ t.Keys, kv.2.Code = KeyCodeComplete ∨ kv.2.Code = KeyCodeError) ∧
    (∀ kind : String, (emptyTracker kind).CheckAllComplete = true) ∧
    (∀ (t : KeyTracker) (kv : String × KeyData), kv ∈ t.Keys →
        kv.2.Code = KeyCodeInit ∨ kv.2.Code = KeyCodePending ∨ kv.2.Code = KeyCodeIgnore →
        t.CheckAllComplete = false) := by
  have hiff : ∀ t : KeyTracker, t.CheckAllComplete = true ↔
      ∀ kv ∈ t.Keys, kv.2.Code = KeyCodeComplete ∨ kv.2.Code = KeyCodeError := by
    intro t
    simp [KeyTracker.CheckAllComplete, List.all_eq_true]
  refine ⟨hiff, ?_, ?_⟩
  · intro kind
    simp [KeyTracker.CheckAllComplete, emptyTracker]
  · intro t kv hmem hcode
    cases hb : t.CheckAllComplete with
    | false => rfl
    | true =>
        rcases (hiff t).mp hb kv hmem with h | h <;>
          rcases hcode with h' | h' | h' <;>
            simp [KeyCodeComplete, KeyCodeError, KeyCodeInit, KeyCodePending,
              KeyCodeIgnore, h] at h'

/-- Witness for C4: a tracker holding one PENDING key is not all-complete. -/
theorem claim_C4_witness :
    (KeyTracker.mk [("A", KeyData.mk KeyCodePending KeyStatePending "" [] 0 0)]
      ScanObjectTypeFile).CheckAllComplete = false := by
  exact claim_C4.2.2 _ ("A", KeyData.mk KeyCodePending KeyStatePending "" [] 0 0)
    (by decide) (by decide)

open rrr

set_option maxRecDepth 8000 in
/-- C3: for non-empty inputs `NewRequest` succeeds and its ID is the
lowercase hex SHA-1 of the four strings joined by `ResultSeparatorUID` in the
order repo, commit, object, text — hence deterministic across calls; for the
tuple (`test-repo`, `test-commit`, `test-object`, `test-text`) the ID is
`0be325f9ba1df76ddfcf60fe972f3b0f06781ac1`. -/
theorem claim_C3 :
    (∀ (input : NewRequestInput) (now1 now2 : Int),
        input.RepoID ≠ "" → input.ObjectID ≠ "" → input.CommitID ≠ "" → input.Text ≠ "" →
        (NewRequest now1 input).2 = none ∧
        (NewRequest now1 input).1.ID =
          sha1HexOfString (String.intercalate ResultSeparatorUID
            [input.RepoID, input.CommitID, input.ObjectID, input.Text]) ∧
        (NewRequest now1 input).1.ID = (NewRequest now2 input).1.ID) ∧
    ((NewRequest 0 (NewRequestInput.mk "test-commit" 9 "test-object" 0 "test-repo"
        "test-text")).1.ID = "0be325f9ba1df76ddfcf60fe972f3b0f06781ac1") := by
  constructor
  · intro input now1 now2 h1 h2 h3 h4
    simp only [NewRequest, if_neg h1, if_neg h2, if_neg h3, if_neg h4]
    exact ⟨trivial, rfl, rfl⟩
  · rfl

/-- Witness for C3: two `NewRequest` calls with different clocks on the same
tuple share the ID. -/
theorem claim_C3_witness :
    ("test-repo" : String) ≠ "" ∧
    ((NewRequest 3 (NewRequestInput.mk "test-commit" 9 "test-object" 0 "test-repo"
      "test-text")).1.ID = (NewRequest 7 (NewRequestInput.mk "test-commit" 9 "test-object"
      0 "test-repo" "test-text")).1.ID) := by
  refine ⟨by decide, ?_⟩
  exact (claim_C3.1 (NewRequestInput.mk "test-commit" 9 "test-object" 0 "test-repo"
    "test-text") 3 7 (by decide) (by decide) (by decide) (by decide)).2.2

/-- C8: `NewRequest` fails exactly when one of the four string inputs is
empty, returning the zero request together with the error matching the first
empty field in source order (repository, object, commit, text), and succeeds
otherwise. -/
theorem claim_C8 :
    ∀ (input : NewRequestInput) (now : Int),
      (((NewRequest now input).2 ≠ none) ↔
        (input.RepoID = "" ∨ input.CommitID = "" ∨ input.ObjectID = "" ∨ input.Text = "")) ∧
      (input.RepoID = "" →
        NewRequest now input = (requestZero, some RrrErr.newRequestEmptyRepositoryID)) ∧
      (input.RepoID ≠ "" → input.ObjectID = "" →
        NewRequest now input = (requestZero, some RrrErr.newRequestEmptyObjectID)) ∧
      (input.RepoID ≠ "" → input.ObjectID ≠ "" → input.CommitID = "" →
        NewRequest now input = (requestZero, some RrrErr.newRequestEmptyCommitID)) ∧
      (input.RepoID ≠ "" → input.ObjectID ≠ "" → input.CommitID ≠ "" → input.Text = "" →
        NewRequest now input = (requestZero, some RrrErr.newRequestEmptyText)) ∧
      (input.RepoID ≠ "" → input.ObjectID ≠ "" → input.CommitID ≠ "" → input.Text ≠ "" →
        (NewRequest now input).2 = none) := by
  intro input now
  simp only [NewRequest]
  split_ifs with h1 h2 h3 h4 <;> simp_all

/-- Witness for C8: an input with only the text empty yields the text
error. -/
theorem claim_C8_witness :
    (NewRequest 0 (NewRequestInput.mk "c" 1 "o" 0 "r" "")).2 =
      some RrrErr.newRequestEmptyText := by
  have h := (claim_C8 (NewRequestInput.mk "c" 1 "o" 0 "r" "") 0).2.2.2.2.1
    (by decide) (by decide) (by decide) rfl
  rw [h]

open scanner

/-- C7: `IgnoreFileObject` is a pure function applying its rules in the fixed
order nil, empty, directory path, file name, config-ignored extension,
policy-ignored extension, extension not allowed, binary content, first match
deciding; `vendor/foo.go` is ignored as `directory_path` even with `.go`
allowed, a size-0 `a.json` as `file_is_empty`, and a non-empty, non-binary
allowed file matched by no rule is not ignored. -/
theorem claim_C7 :
    (∀ a i : List String, IgnoreFileObject none a i = (true, IgnoreReasonFileObjectPointerNil)) ∧
    (∀ (f : FileObject) (a i : List String), f.Size = 0 →
      IgnoreFileObject (some f) a i = (true, IgnoreReasonFileIsEmpty)) ∧
    (∀ (f : FileObject) (a i : List String), f.Size ≠ 0 →
      (dirElems f.Name).any (fun d => ignoredDirectories.contains d) = true →
      IgnoreFileObject (some f) a i = (true, IgnoreReasonDirPath)) ∧
    (∀ (f : FileObject) (a i : List String), f.Size ≠ 0 →
      (dirElems f.Name).any (fun d => ignoredDirectories.contains d) = false →
      ignoredFileNames.contains (baseName f.Name) = true →
      IgnoreFileObject (some f) a i = (true, IgnoreReasonFileName)) ∧
    (∀ (f : FileObject) (a i : List String), f.Size ≠ 0 →
      (dirElems f.Name).any (fun d => ignoredDirectories.contains d) = false →
      ignoredFileNames.contains (baseName f.Name) = false →
      i.contains (fileExt f.Name) = true →
      IgnoreFileObject (some f) a i = (true, IgnoreReasonFileExtensionIgnoredByConfig)) ∧
    (∀ (f : FileObject) (a i : List String), f.Size ≠ 0 →
      (dirElems f.Name).any (fun d => ignoredDirectories.contains d) = false →
      ignoredFileNames.contains (baseName f.Name) = false →
      i.contains (fileExt f.Name) = false →
      policyIgnoredExtensions.contains (fileExt f.Name) = true →
      IgnoreFileObject (some f) a i = (true, IgnoreReasonFileExtensionIgnoredByPolicy)) ∧
    (∀ (f : FileObject) (a i : List String), f.Size ≠ 0 →
      (dirElems f.Name).any (fun d => ignoredDirectories.contains d) = false →
      ignoredFileNames.contains (baseName f.Name) = false →
      i.contains (fileExt f.Name) = false →
      policyIgnoredExtensions.contains (fileExt f.Name) = false →
      a.contains (fileExt f.Name) = true →
      f.IsBinary = true →
      IgnoreFileObject (some f) a i = (true, IgnoreReasonFileIsBinary)) ∧
    (∀ (f : FileObject) (a i : List String), f.Size ≠ 0 →
      (dirElems f.Name).any (fun d => ignoredDirectories.contains d) = false →
      ignoredFileNames.contains (baseName f.Name) = false →
      i.contains (fileExt f.Name) = false →
      policyIgnoredExtensions.contains (fileExt f.Name) = false →
      a.contains (fileExt f.Name) = true →
      f.IsBinary = false →
      IgnoreFileObject (some f) a i = (false, "")) ∧
    (IgnoreFileObject (some (FileObject.mk "vendor/foo.go" 3 false)) [".go"] [] =
      (true, IgnoreReasonDirPath)) ∧
    (IgnoreFileObject (some (FileObject.mk "a.json" 0 false)) [".json"] [] =
      (true, IgnoreReasonFileIsEmpty)) ∧
    (IgnoreFileObject (some (FileObject.mk "a.json" 3 false)) [".json"] [] = (false, "")) := by
  refine ⟨?_, ?_, ?_, ?_, ?_, ?_, ?_, ?_, by decide, by decide, by decide⟩
  · intro a i
    rfl
  · intro f a i h0
    simp [IgnoreFileObject, h0]
  · intro f a i h0 h1
    simp only [IgnoreFileObject]
    rw [if_neg h0, if_pos h1]
  · intro f a i h0 h1 h2
    simp only [IgnoreFileObject]
    rw [if_neg h0, if_neg (by rw [h1]; simp), if_pos h2]
  · intro f a i h0 h1 h2 h3
    simp only [IgnoreFileObject]
    rw [if_neg h0, if_neg (by rw [h1]; simp), if_neg (by rw [h2]; simp), if_pos h3]
  · intro f a i h0 h1 h2 h3 h4
    simp only [IgnoreFileObject]
    rw [if_neg h0, if_neg (by rw [h1]; simp), if_neg (by rw [h2]; simp),
      if_neg (by rw [h3]; simp), if_pos h4]
  · intro f a i h0 h1 h2 h3 h4 h5 h6
    simp only [IgnoreFileObject]
    rw [if_neg h0, if_neg (by rw [h1]; simp), if_neg (by rw [h2]; simp),
      if_neg (by rw [h3]; simp), if_neg (by rw [h4]; simp), if_neg (by rw [h5]; simp),
      if_pos h6]
  · intro f a i h0 h1 h2 h3 h4 h5 h6
    simp only [IgnoreFileObject]
    rw [if_neg h0, if_neg (by rw [h1]; simp), if_neg (by rw [h2]; simp),
      if_neg (by rw [h3]; simp), if_neg (by rw [h4]; simp), if_neg (by rw [h5]; simp),
      if_neg (by rw [h6]; simp)]

/-- Witness for C7: an allowed, non-empty, non-binary markdown file outside
any ignore rule is scanned. -/
theorem claim_C7_witness :
    IgnoreFileObject (some (FileObject.mk "docs/readme.md" 12 false)) [".md"] [] =
      (false, "") := by
  exact claim_C7.2.2.2.2.2.2.2.1 (FileObject.mk "docs/readme.md" 12 false) [".md"] []
    (by decide) (by decide) (by decide) (by decide) (by decide) (by decide) (by decide)

/-- Counterexample for C6: the extension-not-allowed rule returns the reason
`"ignored_by_default"` (as `TestIgnoreFileObject` requires), not the claimed
`"file_extension_not_included"`. -/
theorem claim_C6_counterexample :
    IgnoreFileObject
      (some (FileObject.mk "test.random_extension_not_included_by_default" 3 false))
      [".json"] [] = (true, IgnoreReasonDefault) ∧
    IgnoreReasonDefault ≠ IgnoreReasonFileExtensionNotIncluded := by
  exact ⟨by decide, by decide⟩

/-- C6 (amended): a non-nil, non-empty file object matched by no earlier
ignore rule and whose extension is not in `allowed_extensions` is ignored
with reason `IgnoreReasonDefault` (`"ignored_by_default"`). -/
theorem claim_C6 :
    ∀ (f : FileObject) (a i : List String), f.Size ≠ 0 →
      (dirElems f.Name).any (fun d => ignoredDirectories.contains d) = false →
      ignoredFileNames.contains (baseName f.Name) = false →
      i.contains (fileExt f.Name) = false →
      policyIgnoredExtensions.contains (fileExt f.Name) = false →
      a.contains (fileExt f.Name) = false →
      IgnoreFileObject (some f) a i = (true, IgnoreReasonDefault) := by
  intro f a i h0 h1 h2 h3 h4 h5
  simp only [IgnoreFileObject]
  rw [if_neg h0, if_neg (by rw [h1]; simp), if_neg (by rw [h2]; simp),
    if_neg (by rw [h3]; simp), if_neg (by rw [h4]; simp), if_pos (by rw [h5]; simp)]

/-- Witness for C6: a file with an extension outside every list is ignored
with the default reason. -/
theorem claim_C6_witness :
    IgnoreFileObject (some (FileObject.mk "x.zzz" 5 false)) [".json"] [] =
      (true, IgnoreReasonDefault) := by
  exact claim_C6 (FileObject.mk "x.zzz" 5 false) [".json"] []
    (by decide) (by decide) (by decide) (by decide) (by decide) (by decide)

/-- C9: `scanRepository` panics on a nil `errors_out` channel before doing
anything else; with a usable channel and a nil repository it sends
`ErrScannerRepositoryNil` on the channel and aborts before walking any
commit. -/
theorem claim_C9 :
    (∀ repo : Option Repository,
      scanRepository true repo =
        ScanRepoResult.mk [] [] (ScanOutcome.panicked ErrMsgErrorChannelNil)) ∧
    ((scanRepository false none).sentErrors = [ErrScannerRepositoryNil] ∧
      (scanRepository false none).walkedCommits = [] ∧
      (scanRepository false none).outcome ≠ ScanOutcome.finished) := by
  constructor
  · intro repo
    rfl
  · exact ⟨rfl, rfl, by decide⟩

/-- C10: with a derivable checkpoint path whose parent directory exists and
no checkpoint file present, `CheckpointGet` returns no checkpoint and an
error wrapping `ErrCheckpointFileReadFailed` with message `"file size is 0"`,
and leaves a newly created empty file at the checkpoint path (the open uses
the create flag before the size check). -/
theorem claim_C10 :
    ∀ (decode : List Nat → Except GoError Checkpoint) (fs : FileSys)
      (work_dir repo_url path : String),
      getCheckpointPath work_dir repo_url "" = Except.ok path →
      fs.dirs.contains (parentDir path) = true →
      fs.files.lookup path = none →
      CheckpointGet decode fs work_dir repo_url "" =
        ((none, some (GoError.wrap ErrCheckpointFileReadFailed "file size is 0")),
          FileSys.mk fs.dirs (tracker.setEntry fs.files path [])) ∧
      (tracker.setEntry fs.files path []).lookup path = some [] := by
  intro decode fs work_dir repo_url path hpath hdir hnofile
  have hself := lookup_setEntry_self fs.files path ([] : List Nat)
  have hopen : openCheckpointFile fs work_dir repo_url "" =
      Except.ok (path, FileSys.mk fs.dirs (tracker.setEntry fs.files path [])) := by
    simp only [openCheckpointFile, hpath]
    rw [if_pos hdir, hnofile]
  refine ⟨?_, hself⟩
  simp only [CheckpointGet, hpath, hopen, hself]
  rfl

/-- Witness for C10: a concrete empty filesystem with the checkpoints
directory present gains an empty checkpoint file and reports the read
failure. -/
theorem claim_C10_witness :
    CheckpointGet (fun _ => Except.error (GoError.base "unused"))
      (FileSys.mk ["/wd/checkpoints"] []) "/wd" "git@github.com:org/repo.git" "" =
      ((none, some (GoError.wrap ErrCheckpointFileReadFailed "file size is 0")),
        FileSys.mk ["/wd/checkpoints"] [("/wd/checkpoints/org_repo.checkpoint", [])]) := by
  exact (claim_C10 (fun _ => Except.error (GoError.base "unused"))
    (FileSys.mk ["/wd/checkpoints"] []) "/wd" "git@github.com:org/repo.git"
    "/wd/checkpoints/org_repo.checkpoint" rfl (by decide) (by decide)).1

end NoPhiAi

namespace NoPhiAi
namespace tracker

theorem lookup_mem {β : Type} {l : List (String × β)} {k : String} {v : β}
    (h : l.lookup k = some v) : (k, v) ∈ l := by
  induction l with
  | nil => simp [List.lookup] at h
  | cons hd tl ih =>
      obtain ⟨k0, v0⟩ := hd
      cases hbk : (k == k0) with
      | false =>
          simp only [List.lookup, hbk] at h
          exact List.mem_cons.mpr (Or.inr (ih h))
      | true =>
          simp only [List.lookup, hbk, Option.some.injEq] at h
          have hk : k = k0 := beq_iff_eq.mp hbk
          subst hk
          subst h
          exact List.mem_cons.mpr (Or.inl rfl)

theorem lookup_eq_of_mem_nodup {β : Type} {l : List (String × β)} {k : String} {v : β}
    (hnd : (l.map Prod.fst).Nodup) (h : (k, v) ∈ l) : l.lookup k = some v := by
  induction l with
  | nil => simp at h
  | cons hd tl ih =>
      obtain ⟨k0, v0⟩ := hd
      simp only [List.map_cons, List.nodup_cons] at hnd
      rcases List.mem_cons.mp h with h1 | h1
      · rw [Prod.mk.injEq] at h1
        obtain ⟨hk, hv⟩ := h1
        subst hk
        subst hv
        simp [List.lookup]
      · have hk : (k == k0) = false := by
          refine beq_eq_false_iff_ne.mpr ?_
          intro he
          subst he
          exact hnd.1 (List.mem_map.mpr ⟨(k, v), h1, rfl⟩)
        simp only [List.lookup, hk]
        exact ih hnd.2 h1

theorem lookup_eq_none_of_not_mem {β : Type} {l : List (String × β)} {k : String}
    (h : k ∉ l.map Prod.fst) : l.lookup k = none := by
  induction l with
  | nil => simp [List.lookup]
  | cons hd tl ih =>
      obtain ⟨k0, v0⟩ := hd
      simp only [List.map_cons, List.mem_cons] at h
      push_neg at h
      have hk : (k == k0) = false := beq_eq_false_iff_ne.mpr h.1
      simp only [List.lookup, hk]
      exact ih h.2

theorem keys_setEntry_of_lookup_some {β : Type} {l : List (String × β)} {k : String}
    {w : β} (h : l.lookup k = some w) (v : β) :
    (setEntry l k v).map Prod.fst = l.map Prod.fst := by
  induction l with
  | nil => simp [List.lookup] at h
  | cons hd tl ih =>
      obtain ⟨k0, v0⟩ := hd
      by_cases hk : k0 = k
      · subst hk
        simp [setEntry]
      · have hbk : (k == k0) = false := by
          refine beq_eq_false_iff_ne.mpr ?_
          exact fun he => hk he.symm
        simp only [List.lookup, hbk] at h
        simp [setEntry, hk, ih h]

end tracker
end NoPhiAi

namespace NoPhiAi
namespace tracker

theorem lookup_isSome_of_mem {β : Type} {l : List (String × β)} {k : String} {v : β}
    (h : (k, v) ∈ l) : ∃ w, l.lookup k = some w := by
  induction l with
  | nil => simp at h
  | cons hd tl ih =>
      obtain ⟨k0, v0⟩ := hd
      by_cases hk : k = k0
      · subst hk
        exact ⟨v0, by simp [List.lookup]⟩
      · have hbk : (k == k0) = false := beq_eq_false_iff_ne.mpr hk
        rcases List.mem_cons.mp h with h1 | h1
        · rw [Prod.mk.injEq] at h1
          exact absurd h1.1 hk
        · obtain ⟨w, hw⟩ := ih h1
          exact ⟨w, by simp [List.lookup, hbk, hw]⟩

theorem mem_false_setEntry_true {ch : List (String × Bool)} {rid x : String}
    (hnd : (ch.map Prod.fst).Nodup) (h : (rid, false) ∈ setEntry ch x true) :
    (rid, false) ∈ ch ∧ rid ≠ x := by
  induction ch with
  | nil =>
      simp [setEntry] at h
  | cons hd tl ih =>
      obtain ⟨k0, b0⟩ := hd
      simp only [List.map_cons, List.nodup_cons] at hnd
      by_cases hk : k0 = x
      · subst hk
        simp only [setEntry, if_pos rfl] at h
        rcases List.mem_cons.mp h with h1 | h1
        · rw [Prod.mk.injEq] at h1
          exact absurd h1.2 (by simp)
        · have hne : rid ≠ k0 := by
            intro he
            subst he
            exact hnd.1 (List.mem_map.mpr ⟨(rid, false), h1, rfl⟩)
          exact ⟨List.mem_cons.mpr (Or.inr h1), hne⟩
      · simp only [setEntry, if_neg hk] at h
        rcases List.mem_cons.mp h with h1 | h1
        · rw [Prod.mk.injEq] at h1
          obtain ⟨h1a, h1b⟩ := h1
          subst h1a
          exact ⟨List.mem_cons.mpr (Or.inl (by rw [h1b])), fun he => hk (he ▸ rfl)⟩
        · obtain ⟨hmem, hne⟩ := ih hnd.2 h1
          exact ⟨List.mem_cons.mpr (Or.inr hmem), hne⟩

theorem mem_false_mergeChild {ch : List (String × Bool)} {rid x : String}
    (hnd : (ch.map Prod.fst).Nodup) (h : (rid, false) ∈ mergeChild true ch x) :
    (rid, false) ∈ ch ∧ rid ≠ x := by
  cases hl : ch.lookup x with
  | some b =>
      simp only [mergeChild, hl, if_true] at h
      exact mem_false_setEntry_true hnd h
  | none =>
      simp only [mergeChild, hl] at h
      rcases List.mem_append.mp h with h1 | h1
      · refine ⟨h1, ?_⟩
        intro he
        subst he
        obtain ⟨w, hw⟩ := lookup_isSome_of_mem h1
        rw [hw] at hl
        cases hl
      · simp at h1

theorem nodup_keys_mergeChild {ch : List (String × Bool)} {x : String}
    (hnd : (ch.map Prod.fst).Nodup) :
    ((mergeChild true ch x).map Prod.fst).Nodup := by
  cases hl : ch.lookup x with
  | some b =>
      simp only [mergeChild, hl, if_true]
      rw [keys_setEntry_of_lookup_some hl]
      exact hnd
  | none =>
      simp only [mergeChild, hl]
      have hx : x ∉ ch.map Prod.fst := by
        intro hmem
        obtain ⟨⟨k0, v0⟩, hm, he⟩ := List.mem_map.mp hmem
        subst he
        obtain ⟨w, hw⟩ := lookup_isSome_of_mem hm
        rw [hw] at hl
        cases hl
      simp [List.nodup_append, hnd, hx]

theorem mem_false_mergeChildren {ch : List (String × Bool)} {rid : String}
    {cc : List String} (hnd : (ch.map Prod.fst).Nodup)
    (h : (rid, false) ∈ mergeChildren true ch cc) :
    (rid, false) ∈ ch ∧ rid ∉ cc := by
  induction cc generalizing ch with
  | nil => exact ⟨h, by simp⟩
  | cons x cc' ih =>
      have h' : (rid, false) ∈ mergeChildren true (mergeChild true ch x) cc' := h
      obtain ⟨hmem, hnotin⟩ := ih (nodup_keys_mergeChild hnd) h'
      obtain ⟨hmem0, hne⟩ := mem_false_mergeChild hnd hmem
      exact ⟨hmem0, by simp [hne, hnotin]⟩

end tracker
end NoPhiAi

namespace NoPhiAi
namespace tracker

theorem Update_snd_empty (t : KeyTracker) (c : Int) (m : String) (cks : List String)
    (now : Int) : (t.Update "" c m cks now).2 = t := rfl

theorem Update_lookup_ne (t : KeyTracker) (key k : String) (c : Int) (m : String)
    (cks : List String) (now : Int) (h : k ≠ key) :
    ((t.Update key c m cks now).2).Keys.lookup k = t.Keys.lookup k := by
  by_cases hk : key = ""
  · subst hk
    rw [Update_snd_empty]
  · cases hv : KeyCodeValidate c with
    | some e => simp only [KeyTracker.Update, if_neg hk, hv]
    | none =>
        cases hl : t.Keys.lookup key with
        | none =>
            simp only [KeyTracker.Update, if_neg hk, hv, hl]
            exact lookup_setEntry_ne _ _ _ _ h
        | some kd =>
            simp only [KeyTracker.Update, if_neg hk, hv, hl]
            by_cases h1 : kd.Code = KeyCodeComplete
            · rw [if_pos h1]
              exact lookup_setEntry_ne _ _ _ _ h
            · rw [if_neg h1]
              by_cases h2 : c = KeyCodeComplete ∧
                  (mergeChildren (decide (c = KeyCodeComplete)) kd.Children cks).any
                    (fun c => !c.2) = true
              · rw [if_pos h2]
                exact lookup_setEntry_ne _ _ _ _ h
              · rw [if_neg h2]
                exact lookup_setEntry_ne _ _ _ _ h

theorem Update_keys_of_lookup_some (t : KeyTracker) (key : String) {kd : KeyData}
    (c : Int) (m : String) (cks : List String) (now : Int)
    (hl : t.Keys.lookup key = some kd) :
    ((t.Update key c m cks now).2).Keys.map Prod.fst = t.Keys.map Prod.fst := by
  by_cases hk : key = ""
  · rw [hk, Update_snd_empty]
  · cases hv : KeyCodeValidate c with
    | some e => simp only [KeyTracker.Update, if_neg hk, hv]
    | none =>
        simp only [KeyTracker.Update, if_neg hk, hv, hl]
        by_cases h1 : kd.Code = KeyCodeComplete
        · rw [if_pos h1]
          exact keys_setEntry_of_lookup_some hl _
        · rw [if_neg h1]
          by_cases h2 : c = KeyCodeComplete ∧
              (mergeChildren (decide (c = KeyCodeComplete)) kd.Children cks).any
                (fun c => !c.2) = true
          · rw [if_pos h2]
            exact keys_setEntry_of_lookup_some hl _
          · rw [if_neg h2]
            exact keys_setEntry_of_lookup_some hl _

theorem Update_complete_char (t : KeyTracker) (key : String) {kd : KeyData}
    (cks : List String) (now : Int) (hk : key ≠ "")
    (hl : t.Keys.lookup key = some kd) (hp : kd.Code = KeyCodePending) :
    (((t.Update key KeyCodeComplete "" cks now).2).Keys.lookup key =
        some { kd with
          Code := KeyCodePending
          State := KeyCodeToState KeyCodePending
          Message := ""
          Children := mergeChildren true kd.Children cks
          TimestampLatest := now } ∧
      (mergeChildren true kd.Children cks).any (fun c => !c.2) = true) ∨
    (∃ kd', ((t.Update key KeyCodeComplete "" cks now).2).Keys.lookup key = some kd' ∧
      kd'.Code = KeyCodeComplete) := by
  have hval : KeyCodeValidate KeyCodeComplete = none := by decide
  have hcode : kd.Code ≠ KeyCodeComplete := by
    rw [hp]
    decide
  have hdec : (decide (KeyCodeComplete = KeyCodeComplete)) = true := by decide
  simp only [KeyTracker.Update, if_neg hk, hval, hl, hdec]
  rw [if_neg hcode]
  by_cases h2 : (mergeChildren true kd.Children cks).any (fun c => !c.2) = true
  · rw [if_pos ⟨trivial, h2⟩]
    exact Or.inl ⟨lookup_setEntry_self _ _ _, h2⟩
  · rw [if_neg (by simp [h2])]
    exact Or.inr ⟨_, lookup_setEntry_self _ _ _, rfl⟩

end tracker
end NoPhiAi

namespace NoPhiAi
namespace scanner
open tracker

theorem childIsComplete_false_of_not_mem {child : KeyTracker} {kd : KeyData}
    {rid : String} (hmem : (rid, false) ∈ kd.Children)
    (hnot : rid ∉ completeChildrenOf child kd) :
    childIsComplete child rid = false := by
  cases hcc : childIsComplete child rid with
  | false => rfl
  | true =>
      exfalso
      apply hnot
      unfold completeChildrenOf
      refine List.mem_map.mpr ⟨(rid, false), ?_, rfl⟩
      refine List.mem_filter.mpr ⟨hmem, ?_⟩
      simp [hcc]

theorem completeChildrenOf_merged_nil {child : KeyTracker} {kd : KeyData}
    (hnd : (kd.Children.map Prod.fst).Nodup) :
    (mergeChildren true kd.Children (completeChildrenOf child kd)).filter
      (fun c => !c.2 && childIsComplete child c.1) = [] := by
  rw [List.filter_eq_nil_iff]
  intro c hc
  obtain ⟨rid, b⟩ := c
  cases b with
  | true => simp
  | false =>
      obtain ⟨hmem, hnot⟩ := mem_false_mergeChildren hnd hc
      simp [childIsComplete_false_of_not_mem hmem hnot]

theorem reconcileStep_lookup_ne (child : KeyTracker) (now : Int) (t : KeyTracker)
    (p : String × KeyData) (k : String) (h : k ≠ p.1) :
    (reconcileStep child now t p).Keys.lookup k = t.Keys.lookup k := by
  by_cases hcc : (completeChildrenOf child p.2).isEmpty
  · simp [reconcileStep, hcc]
  · simp only [reconcileStep, hcc, Bool.false_eq_true, if_false]
    exact Update_lookup_ne _ _ _ _ _ _ _ h

theorem reconcileStep_keys (child : KeyTracker) (now : Int) (t : KeyTracker)
    (p : String × KeyData) {kd : KeyData} (hl : t.Keys.lookup p.1 = some kd) :
    (reconcileStep child now t p).Keys.map Prod.fst = t.Keys.map Prod.fst := by
  by_cases hcc : (completeChildrenOf child p.2).isEmpty
  · simp [reconcileStep, hcc]
  · simp only [reconcileStep, hcc, Bool.false_eq_true, if_false]
    exact Update_keys_of_lookup_some _ _ _ _ _ _ hl

end scanner
end NoPhiAi

namespace NoPhiAi
namespace scanner
open tracker

theorem foldChar (child : KeyTracker) (now : Int) :
    ∀ (P : List (String × KeyData)) (t : KeyTracker),
      (P.map Prod.fst).Nodup →
      (∀ p ∈ P, t.Keys.lookup p.1 = some p.2 ∧ p.2.Code = KeyCodePending ∧
        (p.2.Children.map Prod.fst).Nodup) →
      ∀ (k : String) (kd' : KeyData),
        (P.foldl (reconcileStep child now) t).Keys.lookup k = some kd' →
        kd'.Code = KeyCodePending → k ≠ "" →
        (completeChildrenOf child kd' = [] ∨
          (t.Keys.lookup k = some kd' ∧ k ∉ P.map Prod.fst)) := by
  intro P
  induction P with
  | nil =>
      intro t _ _ k kd' hfold _ _
      exact Or.inr ⟨hfold, by simp⟩
  | cons p0 P' ih =>
      intro t hnd hprem k kd' hfold hpend hk
      obtain ⟨k0, kd0⟩ := p0
      obtain ⟨hl0, hp0, hnd0⟩ := hprem (k0, kd0) (List.mem_cons_self _ _)
      simp only [List.map_cons, List.nodup_cons] at hnd
      have hprem' : ∀ p ∈ P', (reconcileStep child now t (k0, kd0)).Keys.lookup p.1 =
          some p.2 ∧ p.2.Code = KeyCodePending ∧ (p.2.Children.map Prod.fst).Nodup := by
        intro p hp
        obtain ⟨hlp, hcp, hnp⟩ := hprem p (List.mem_cons.mpr (Or.inr hp))
        have hne : p.1 ≠ k0 := by
          intro he
          exact hnd.1 (he ▸ List.mem_map.mpr ⟨p, hp, rfl⟩)
        exact ⟨(reconcileStep_lookup_ne child now t (k0, kd0) p.1 hne).trans hlp, hcp, hnp⟩
      have hfold' : (P'.foldl (reconcileStep child now)
          (reconcileStep child now t (k0, kd0))).Keys.lookup k = some kd' := hfold
      rcases ih (reconcileStep child now t (k0, kd0)) hnd.2 hprem' k kd' hfold' hpend hk with
        hleft | ⟨hlk, hnotmem⟩
      · exact Or.inl hleft
      · by_cases hkk : k = k0
        · subst hkk
          by_cases hcc : (completeChildrenOf child kd0).isEmpty
          · rw [show reconcileStep child now t (k, kd0) = t by
              simp [reconcileStep, hcc]] at hlk
            rw [hlk] at hl0
            have hkd : kd' = kd0 := Option.some.inj hl0
            subst hkd
            exact Or.inl (List.isEmpty_iff.mp hcc)
          · have hstep : reconcileStep child now t (k, kd0) =
                (t.Update k KeyCodeComplete "" (completeChildrenOf child kd0) now).2 := by
              simp [reconcileStep, hcc]
            rw [hstep] at hlk
            rcases Update_complete_char t k (completeChildrenOf child kd0) now hk hl0 hp0 with
              ⟨hlook, _⟩ | ⟨kd2, hlook2, hcode2⟩
            · rw [hlk] at hlook
              have hkd := Option.some.inj hlook
              subst hkd
              refine Or.inl ?_
              show (List.filter _ _).map Prod.fst = []
              rw [show (mergeChildren true kd0.Children
                  (completeChildrenOf child kd0)).filter
                  (fun c => !c.2 && childIsComplete child c.1) = [] from
                completeChildrenOf_merged_nil hnd0]
              rfl
            · rw [hlk] at hlook2
              have hkd := Option.some.inj hlook2
              subst hkd
              rw [hpend] at hcode2
              exact absurd hcode2 (by decide)
        · have hlk' : t.Keys.lookup k = some kd' := by
            rw [← reconcileStep_lookup_ne child now t (k0, kd0) k hkk]
            exact hlk
          refine Or.inr ⟨hlk', ?_⟩
          simp only [List.map_cons, List.mem_cons]
          push_neg
          exact ⟨hkk, hnotmem⟩

end scanner
end NoPhiAi

namespace NoPhiAi
namespace scanner
open tracker

theorem foldKeys (child : KeyTracker) (now : Int) :
    ∀ (P : List (String × KeyData)) (t : KeyTracker),
      (P.map Prod.fst).Nodup →
      (∀ p ∈ P, t.Keys.lookup p.1 = some p.2) →
      (P.foldl (reconcileStep child now) t).Keys.map Prod.fst = t.Keys.map Prod.fst := by
  intro P
  induction P with
  | nil => intro t _ _; rfl
  | cons p0 P' ih =>
      intro t hnd hprem
      obtain ⟨k0, kd0⟩ := p0
      have hl0 := hprem (k0, kd0) (List.mem_cons_self _ _)
      simp only [List.map_cons, List.nodup_cons] at hnd
      have hprem' : ∀ p ∈ P', (reconcileStep child now t (k0, kd0)).Keys.lookup p.1 =
          some p.2 := by
        intro p hp
        have hne : p.1 ≠ k0 := by
          intro he
          exact hnd.1 (he ▸ List.mem_map.mpr ⟨p, hp, rfl⟩)
        exact (reconcileStep_lookup_ne child now t (k0, kd0) p.1 hne).trans
          (hprem p (List.mem_cons.mpr (Or.inr hp)))
      calc (List.foldl (reconcileStep child now)
            (reconcileStep child now t (k0, kd0)) P').Keys.map Prod.fst
          = (reconcileStep child now t (k0, kd0)).Keys.map Prod.fst :=
            ih (reconcileStep child now t (k0, kd0)) hnd.2 hprem'
        _ = t.Keys.map Prod.fst := reconcileStep_keys child now t (k0, kd0) hl0

theorem identityFold (child : KeyTracker) (now : Int) :
    ∀ (P : List (String × KeyData)) (t : KeyTracker),
      (∀ p ∈ P, p.1 ≠ "" → completeChildrenOf child p.2 = []) →
      P.foldl (reconcileStep child now) t = t := by
  intro P
  induction P with
  | nil => intro t _; rfl
  | cons p0 P' ih =>
      intro t hprem
      obtain ⟨k0, kd0⟩ := p0
      have hstep : reconcileStep child now t (k0, kd0) = t := by
        by_cases hk : k0 = ""
        · by_cases hcc : (completeChildrenOf child kd0).isEmpty
          · simp [reconcileStep, hcc]
          · have : (t.Update k0 KeyCodeComplete "" (completeChildrenOf child kd0) now).2 =
                t := by
              rw [hk]
              exact Update_snd_empty _ _ _ _ _
            simp [reconcileStep, hcc, this]
        · have hcc : (completeChildrenOf child kd0).isEmpty = true := by
            rw [hprem (k0, kd0) (List.mem_cons_self _ _) hk]
            rfl
          simp [reconcileStep, hcc]
      show List.foldl (reconcileStep child now) (reconcileStep child now t (k0, kd0)) P' = t
      rw [hstep]
      exact ih t (fun p hp => hprem p (List.mem_cons.mpr (Or.inr hp)))

end scanner
end NoPhiAi

namespace NoPhiAi
namespace scanner
open tracker

theorem pending_premises {t : KeyTracker} (h : WF t) :
    ((pendingList t).map Prod.fst).Nodup ∧
    ∀ p ∈ pendingList t, t.Keys.lookup p.1 = some p.2 ∧ p.2.Code = KeyCodePending ∧
      (p.2.Children.map Prod.fst).Nodup := by
  constructor
  · exact List.Nodup.sublist ((List.filter_sublist t.Keys).map Prod.fst) h.1
  · intro p hp
    have hm := List.mem_filter.mp hp
    have hcode : p.2.Code = KeyCodePending := beq_iff_eq.mp hm.2
    refine ⟨?_, hcode, h.2 p hm.1⟩
    exact lookup_eq_of_mem_nodup h.1 (by simpa using hm.1)

theorem phase_fixpoint (t child : KeyTracker) (now : Int) (h : WF t) :
    ∀ p ∈ pendingList ((pendingList t).foldl (reconcileStep child now) t),
      p.1 ≠ "" → completeChildrenOf child p.2 = [] := by
  obtain ⟨ndP, hprem⟩ := pending_premises h
  intro p hp hne
  have hm := List.mem_filter.mp hp
  have hcode : p.2.Code = KeyCodePending := beq_iff_eq.mp hm.2
  have hnd' : (((pendingList t).foldl (reconcileStep child now) t).Keys.map Prod.fst).Nodup := by
    rw [foldKeys child now (pendingList t) t ndP (fun q hq => (hprem q hq).1)]
    exact h.1
  have hlk : ((pendingList t).foldl (reconcileStep child now) t).Keys.lookup p.1 = some p.2 :=
    lookup_eq_of_mem_nodup hnd' (by simpa using hm.1)
  rcases foldChar child now (pendingList t) t ndP hprem p.1 p.2 hlk hcode hne with
    hl | ⟨hl0, hnot⟩
  · exact hl
  · exact absurd (List.mem_map.mpr ⟨(p.1, p.2),
      List.mem_filter.mpr ⟨lookup_mem hl0, by simp [hcode]⟩, rfl⟩) hnot

end scanner

open scanner tracker in
/-- C5: `reconcilePending` is idempotent: on well-formed trackers (unique
keys, unique child keys — the invariant of Go maps), running the reconciler a
second time with no intervening tracker updates leaves `TrackerCommits`,
`TrackerFiles` and `TrackerRequests` exactly as after the first run,
whatever the tick times of the two runs. -/
theorem claim_C5 (s : ScannerTrackers) (now now' : Int)
    (hWF : WF s.TrackerFiles) (hWC : WF s.TrackerCommits) :
    reconcilePending (reconcilePending s now) now' = reconcilePending s now := by
  set files1 := (pendingList s.TrackerFiles).foldl
    (reconcileStep s.TrackerRequests now) s.TrackerFiles with hf1
  set commits1 := (pendingList s.TrackerCommits).foldl
    (reconcileStep files1 now) s.TrackerCommits with hc1
  have e1 : reconcilePending s now = ScannerTrackers.mk commits1 files1 s.TrackerRequests := rfl
  set files2 := (pendingList files1).foldl
    (reconcileStep s.TrackerRequests now') files1 with hf2
  have e2 : reconcilePending (ScannerTrackers.mk commits1 files1 s.TrackerRequests) now' =
      ScannerTrackers.mk ((pendingList commits1).foldl (reconcileStep files2 now') commits1)
        files2 s.TrackerRequests := rfl
  have hid1 : files2 = files1 := identityFold s.TrackerRequests now' (pendingList files1)
    files1 (phase_fixpoint s.TrackerFiles s.TrackerRequests now hWF)
  have hid2 : (pendingList commits1).foldl (reconcileStep files1 now') commits1 = commits1 :=
    identityFold files1 now' (pendingList commits1) commits1
      (phase_fixpoint s.TrackerCommits files1 now hWC)
  rw [e1, e2, hid1, hid2]

end NoPhiAi

namespace NoPhiAi

open scanner tracker in
/-- Witness for C5: a concrete scanner state with one pending file (one
request complete, one still pending) and one pending commit reconciles to a
fixed point after one run. -/
theorem claim_C5_witness :
    reconcilePending (reconcilePending (ScannerTrackers.mk
      (KeyTracker.mk [("c1", KeyData.mk KeyCodePending KeyStatePending ""
        [("f1", false)] 0 0)] ScanObjectTypeCommit)
      (KeyTracker.mk [("f1", KeyData.mk KeyCodePending KeyStatePending ""
        [("r1", false), ("r2", false)] 0 0)] ScanObjectTypeFile)
      (KeyTracker.mk [("r1", KeyData.mk KeyCodeComplete KeyStateComplete "" [] 0 0),
        ("r2", KeyData.mk KeyCodePending KeyStatePending "" [] 0 0)]
        ScanObjectTypeRequestResponse)) 7) 9 =
    reconcilePending (ScannerTrackers.mk
      (KeyTracker.mk [("c1", KeyData.mk KeyCodePending KeyStatePending ""
        [("f1", false)] 0 0)] ScanObjectTypeCommit)
      (KeyTracker.mk [("f1", KeyData.mk KeyCodePending KeyStatePending ""
        [("r1", false), ("r2", false)] 0 0)] ScanObjectTypeFile)
      (KeyTracker.mk [("r1", KeyData.mk KeyCodeComplete KeyStateComplete "" [] 0 0),
        ("r2", KeyData.mk KeyCodePending KeyStatePending "" [] 0 0)]
        ScanObjectTypeRequestResponse)) 7 := by
  exact claim_C5 (ScannerTrackers.mk
      (KeyTracker.mk [("c1", KeyData.mk KeyCodePending KeyStatePending ""
        [("f1", false)] 0 0)] ScanObjectTypeCommit)
      (KeyTracker.mk [("f1", KeyData.mk KeyCodePending KeyStatePending ""
        [("r1", false), ("r2", false)] 0 0)] ScanObjectTypeFile)
      (KeyTracker.mk [("r1", KeyData.mk KeyCodeComplete KeyStateComplete "" [] 0 0),
        ("r2", KeyData.mk KeyCodePending KeyStatePending "" [] 0 0)]
        ScanObjectTypeRequestResponse)) 7 9
    (by unfold WF; exact ⟨by decide, by decide⟩)
    (by unfold WF; exact ⟨by decide, by decide⟩)

end NoPhiAi
